import Mathlib

/-!
Verification of the session-store core of this repository
(`src/koa-generic-session-mongo-fixed/src/store.js`, class `MongoStore`).

The store keeps session records in a MongoDB collection.  We embed:

* JavaScript values (`JVal`) as far as the store inspects them: strings,
  numbers, booleans, `Date`s, plain objects (ordered key/value lists) and
  `null`.  A JS `undefined` is represented as `Option.none` at use sites.
* a document as an ordered association list of fields (`Doc`), matching a
  JS object's own enumerable properties in insertion order;
* the collection as a list of documents (`Collection`); the driver calls
  used by the store (`findOne` with a field projection, `update` with
  `upsert: true` and a replacement document, `remove`) become list
  operations with MongoDB's documented semantics;
* the constructor's option validation and connection-string synthesis;
* the index-setup promise chain and the `connect`/`error` events.

Machine integers do not overflow here (JS numbers are doubles and every
arithmetic in the store is millisecond addition), so timestamps and
durations are `Int`.
-/

namespace SessionStore

/-- A JavaScript value as far as `store.js` inspects one. -/
inductive JVal where
  | str (s : String)
  | num (n : Int)
  | bool (b : Bool)
  | date (ms : Int)
  | obj (fields : List (String × JVal))
  | null

/-- A document / plain JS object: its own enumerable properties in order. -/
abbrev Doc := List (String × JVal)

/-- Property read `d[k]` on an object's own properties; `none` is JS
`undefined`. -/
def lookupDoc : Doc → String → Option JVal
  | [], _ => none
  | (k, v) :: rest, key => if k = key then some v else lookupDoc rest key

/-- Property assignment `d[k] = v` on a JS object: overwrites in place if
the key exists (keeping its position), otherwise appends. -/
def setKey : Doc → String → JVal → Doc
  | [], k, v => [(k, v)]
  | (k', v') :: rest, k, v =>
    if k' = k then (k, v) :: rest else (k', v') :: setKey rest k v

/-- JS truthiness of a defined value. -/
def jsTruthy : JVal → Bool
  | .str s => s ≠ ""
  | .num n => n ≠ 0
  | .bool b => b
  | .date _ => true
  | .obj _ => true
  | .null => false

/-- Property read `v.k` where `v` is any (truthy) value: objects yield the
field, primitives yield `undefined`. -/
def jsGetField (v : JVal) (k : String) : Option JVal :=
  match v with
  | .obj fields => lookupDoc fields k
  | _ => none

/-- JS `a || b` on possibly-undefined values. -/
def jsOr (a b : Option JVal) : Option JVal :=
  match a with
  | some v => if jsTruthy v then some v else b
  | none => b

/-- `const ONE_DAY = 86400 * 1000;` (store.js line 15). -/
def ONE_DAY : Int := 86400 * 1000

/-- `const DEFAULT_COLLECTION = 'sessions';` (store.js line 17). -/
def DEFAULT_COLLECTION : String := "sessions"

/-- `const DEFAULT_DBNAME = 'sessiondb';` (store.js line 16). -/
def DEFAULT_DBNAME : String := "sessiondb"

/-- `sess.cookie && (sess.cookie.maxAge || sess.cookie.maxage)`
(store.js line 144), evaluated on the cloned session. -/
def maxAgeExpr (sess : Doc) : Option JVal :=
  match lookupDoc sess "cookie" with
  | none => none
  | some c =>
    if jsTruthy c then jsOr (jsGetField c "maxAge") (jsGetField c "maxage")
    else some c

/-- The duration added to `Date.now()` in store.js lines 149-150:
`ttl || ('number' == typeof maxAge ? maxAge : ONE_DAY)`.  The `ttl`
argument is a JS number or `undefined`; `some 0` is falsy. -/
def effectiveDelay (sess : Doc) (ttl : Option Int) : Int :=
  let fallback :=
    match maxAgeExpr sess with
    | some (.num n) => n
    | _ => ONE_DAY
  match ttl with
  | some n => if n = 0 then fallback else n
  | none => fallback

/-- The document committed by `set`: the clone of `sess` after
`sess.sid = sid; sess.ttl = new Date(delay + Date.now())`
(store.js lines 143-150). -/
def stampedDoc (sid : String) (sess : Doc) (ttl : Option Int) (now : Int) : Doc :=
  setKey (setKey sess "sid" (.str sid)) "ttl"
    (.date (effectiveDelay sess ttl + now))

/-- The fields the `findOne` projection `{_id: 0, ttl: 0, sid: 0}`
excludes (store.js line 131). -/
def internalKey (k : String) : Bool :=
  k = "_id" || k = "ttl" || k = "sid"

/-- Apply the projection: drop the internal bookkeeping fields. -/
def stripInternal (d : Doc) : Doc :=
  d.filter (fun kv => !internalKey kv.1)

/-- Whether a document matches the query `{sid: sid}`: its `sid` field
equals the given string. -/
def matchesSid (sid : String) (d : Doc) : Bool :=
  match lookupDoc d "sid" with
  | some (.str s) => s = sid
  | _ => false

/-- The session collection. -/
abbrev Collection := List Doc

/-- Replace the first document satisfying `p` (MongoDB `update` without
`multi` replaces a single matching document). -/
def replaceFirst (p : Doc → Bool) (d : Doc) : Collection → Collection
  | [] => []
  | x :: rest => if p x then d :: rest else x :: replaceFirst p d rest

namespace MongoStore

/-- `*get(sid)` (store.js lines 127-132):
`findOne({sid: sid}, {_id: 0, ttl: 0, sid: 0})` — the first document
matching the query, with the projected-out fields stripped; `none` is the
driver's `null`, the absent marker. -/
def get (col : Collection) (sid : String) : Option Doc :=
  (col.find? (matchesSid sid)).map stripInternal

/-- `*set(sid, sess, ttl)` (store.js lines 141-153): clone `sess`, stamp
`sid` and `ttl`, then `update({sid: sid}, sess, {upsert: true})` — the
replacement document replaces the matched document, or is inserted when
nothing matches.  `now` is `Date.now()` at the write. -/
def set (col : Collection) (sid : String) (sess : Doc) (ttl : Option Int)
    (now : Int) : Collection :=
  let doc := stampedDoc sid sess ttl now
  if col.any (matchesSid sid) then replaceFirst (matchesSid sid) doc col
  else col ++ [doc]

/-- `*destroy(sid)` (store.js lines 161-166): `remove({sid: sid})`
removes every matching document; removing nothing is not an error. -/
def destroy (col : Collection) (sid : String) : Collection :=
  col.filter (fun d => !matchesSid sid d)

end MongoStore

/-- The background sweep performed by the TTL index
(`ensureIndex({ttl: 1}, {expireAfterSeconds: 0})`, store.js line 115):
documents whose `ttl` date has passed the current time `t` are purged;
documents without an indexed date are untouched. -/
def expireSweep (t : Int) (col : Collection) : Collection :=
  col.filter (fun d =>
    match lookupDoc d "ttl" with
    | some (.date e) => decide (t < e)
    | _ => true)

/-- The `db` option: either a database name, or an already-open database
handle (detected in store.js line 41 as a non-string value exposing a
`dropDatabase` function). -/
inductive DbOpt where
  | name (s : String)
  | handle

/-- The constructor's recognized options.  A field is `none` when the key
is absent from the options object (`'host' in options` is `isSome`). -/
structure StoreOptions where
  db : Option DbOpt := none
  collection : Option String := none
  url : Option String := none
  user : Option String := none
  password : Option String := none
  host : Option String := none
  port : Option Int := none
  ssl : Option Bool := none

/-- JS truthiness of a possibly-absent string option. -/
def optTruthy : Option String → Bool
  | some s => s ≠ ""
  | none => false

/-- `MongoStore._makeConnectionString` (store.js lines 94-96).  The
destructuring defaults `host = '127.0.0.1'`, `port = 27017`, `db = 'test'`,
`ssl = false` apply when the option is absent; credentials are
interpolated when `user && password` is truthy and `?ssl=true` is appended
when `ssl` is truthy.  On every reachable call the `db` option is a name
or absent, never a handle, so it is a string here. -/
def _makeConnectionString (user password : Option String)
    (host : Option String) (port : Option Int) (db : Option String)
    (ssl : Option Bool) : String :=
  "mongodb://" ++
    (if optTruthy user && optTruthy password then
      user.getD "" ++ ":" ++ password.getD "" ++ "@"
    else "") ++
    host.getD "127.0.0.1" ++ ":" ++ toString (port.getD 27017) ++ "/" ++
    db.getD "test" ++
    (if ssl.getD false then "?ssl=true" else "")

/-- The synthesized connection string as the spec words it: default host
`127.0.0.1`, port `27017`, database name `test`, ssl off;
`user:password@` interpolated exactly when both credentials are supplied
(non-empty), and `?ssl=true` appended exactly when `ssl` is set.  Stated
for comparison with the code's `_makeConnectionString`. -/
def specConnectionString (user password : Option String)
    (host : Option String) (port : Option Int) (db : Option String)
    (ssl : Option Bool) : String :=
  "mongodb://" ++
    (match user, password with
     | some u, some p => if u = "" ∨ p = "" then "" else u ++ ":" ++ p ++ "@"
     | _, _ => "") ++
    host.getD "127.0.0.1" ++ ":" ++ toString (port.getD 27017) ++ "/" ++
    db.getD "test" ++
    (if ssl = some true then "?ssl=true" else "")

/-- The message of the `Error` thrown at store.js line 38. -/
def urlExclusiveMsg : String :=
  "url option is exclusive from host, port, db and ssl options, please include as a full url connection string"

/-- What the constructor decides to do before any asynchronous work:
resolve the collection on an already-open handle, or connect to a URL. -/
inductive InitPlan where
  | withDb (collection : String)
  | withUrl (url : String) (collection : String)

/-- The `db` option restricted to the connection-string path. -/
def dbNameOpt : Option DbOpt → Option String
  | some (.name s) => some s
  | some .handle => none
  | none => none

/-- The synchronous part of the constructor (store.js lines 26-47): the
exclusivity check on `url` (line 37) throws before anything else runs;
otherwise the store picks the open-handle path or builds a connection
URL.  `Except.error` is the synchronously thrown `Error`. -/
def construct (o : StoreOptions) : Except String InitPlan :=
  if optTruthy o.url &&
      (o.host.isSome || o.port.isSome || o.db.isSome || o.ssl.isSome) then
    .error urlExclusiveMsg
  else
    match o.db with
    | some .handle => .ok (.withDb (o.collection.getD DEFAULT_COLLECTION))
    | _ =>
      .ok (.withUrl
        (if optTruthy o.url then o.url.getD ""
         else _makeConnectionString o.user o.password o.host o.port
           (dbNameOpt o.db) o.ssl)
        (o.collection.getD DEFAULT_COLLECTION))

/-- `MongoStore._ensureIndexes` (store.js lines 103-118): both
`ensureIndex` calls must report success before the promise resolves with
the collection; either failure rejects it.  `ttlIdx` and `sidIdx` are the
outcomes the driver reports for the TTL index on `ttl` and the unique
index on `sid`; which callback fires first is scheduling we abstract by
inspecting the TTL one first. -/
def _ensureIndexes {α : Type} (col : α) (ttlIdx sidIdx : Except String Unit) :
    Except String α :=
  match ttlIdx with
  | .error e => .error e
  | .ok _ =>
    match sidIdx with
    | .error e => .error e
    | .ok _ => .ok col

/-- The events the store can emit from its constructor chain. -/
inductive Signal (α : Type) where
  | connect (c : α)
  | error (e : String)

/-- The promise chain of store.js lines 49-55:
`this.col.then(_ensureIndexes).then(emit 'connect').catch(emit 'error')`.
`colRes` is the outcome of resolving the collection; the chain settles
exactly once, emitting one signal and never retrying. -/
def initSignal {α : Type} (colRes : Except String α)
    (ttlIdx sidIdx : Except String Unit) : Signal α :=
  match colRes with
  | .error e => .error e
  | .ok col =>
    match _ensureIndexes col ttlIdx sidIdx with
    | .ok c => .connect c
    | .error e => .error e

/-- The effective max-age exactly as claim C2 words it: the explicit `ttl`
argument when the caller supplies one, otherwise the payload's
`cookie.maxAge` (or `cookie.maxage`) when that value is numeric, otherwise
`ONE_DAY`.  Stated for comparison with the code's `effectiveDelay`. -/
def claimedMaxAge (sess : Doc) (ttl : Option Int) : Int :=
  match ttl with
  | some n => n
  | none =>
    match lookupDoc sess "cookie" with
    | some c =>
      match jsGetField c "maxAge" with
      | some (.num n) => n
      | _ =>
        match jsGetField c "maxage" with
        | some (.num n) => n
        | _ => ONE_DAY
    | none => ONE_DAY

/-- The cookie-derived fallback duration the code actually uses when the
`ttl` argument is absent or zero: with a truthy `cookie`, `cookie.maxAge`
when truthy, else `cookie.maxage`, accepted only when numeric; with a
falsy but present `cookie`, the cookie value itself when numeric;
otherwise `ONE_DAY`. -/
def cookieFallback (sess : Doc) : Int :=
  match lookupDoc sess "cookie" with
  | none => ONE_DAY
  | some c =>
    if jsTruthy c then
      match jsGetField c "maxAge" with
      | some v =>
        if jsTruthy v then
          match v with
          | .num n => n
          | _ => ONE_DAY
        else
          match jsGetField c "maxage" with
          | some (.num n) => n
          | _ => ONE_DAY
      | none =>
        match jsGetField c "maxage" with
        | some (.num n) => n
        | _ => ONE_DAY
    else
      match c with
      | .num n => n
      | _ => ONE_DAY

/-- The effective max-age as the amended claim words it: the explicit
`ttl` argument when it is supplied and nonzero, otherwise the
cookie-derived fallback. -/
def amendedMaxAge (sess : Doc) (ttl : Option Int) : Int :=
  match ttl with
  | some n => if n = 0 then cookieFallback sess else n
  | none => cookieFallback sess

/-- A heap of JS objects, addressed by allocation index; used to observe
mutation.  Reading an unallocated address is irrelevant to the theorems. -/
abbrev Heap := List Doc

/-- The object stored at address `a`. -/
def heapGet (h : Heap) (a : Nat) : Doc := h.getD a []

/-- The body of `*set` at the level of object identity (store.js lines
141-153): `sess = Object.assign({}, sess)` allocates a fresh object that
shadows the parameter, and the later `sess.sid = ...`, `sess.ttl = ...`
assignments mutate that fresh object.  Returns the heap after the body and
the address of the committed document. -/
def setOnHeap (h : Heap) (sessAddr : Nat) (sid : String) (ttl : Option Int)
    (now : Int) : Heap × Nat :=
  let h1 := h ++ [heapGet h sessAddr]
  let a := h.length
  let delay := effectiveDelay (heapGet h1 a) ttl
  let h2 := h1.set a (setKey (heapGet h1 a) "sid" (.str sid))
  let h3 := h2.set a (setKey (heapGet h2 a) "ttl" (.date (delay + now)))
  (h3, a)

end SessionStore

namespace SessionStore

example : MongoStore.get [] "a" = none := rfl

example :
    MongoStore.get (MongoStore.set [] "a" [("user", .str "bob")] none 5) "a" =
      some [("user", .str "bob")] := rfl

example : effectiveDelay [("cookie", .obj [("maxAge", .num 5000)])] none = 5000 := rfl

example : effectiveDelay [] (some 0) = ONE_DAY := rfl

example :
    _makeConnectionString none none none none none none =
      "mongodb://127.0.0.1:27017/test" := rfl

example :
    _makeConnectionString (some "u") (some "p") none none (some "d") (some true) =
      "mongodb://u:p@127.0.0.1:27017/d?ssl=true" := rfl

example :
    construct { url := some "mongodb://x", host := some "y" } =
      .error urlExclusiveMsg := rfl

example :
    heapGet (setOnHeap [[("k", .str "v")]] 0 "a" none 0).1 0 =
      [("k", .str "v")] := rfl

/-! ### Lemmas about documents -/

theorem lookupDoc_setKey_self (d : Doc) (k : String) (v : JVal) :
    lookupDoc (setKey d k v) k = some v := by
  induction d with
  | nil => simp [setKey, lookupDoc]
  | cons kv rest ih =>
    obtain ⟨k₀, v₀⟩ := kv
    by_cases h : k₀ = k
    · simp [setKey, h, lookupDoc]
    · simp [setKey, h, lookupDoc, ih]

theorem lookupDoc_setKey_ne (d : Doc) (k k' : String) (v : JVal)
    (h : k ≠ k') : lookupDoc (setKey d k v) k' = lookupDoc d k' := by
  induction d with
  | nil => simp [setKey, lookupDoc, h]
  | cons kv rest ih =>
    obtain ⟨k₀, v₀⟩ := kv
    by_cases h₀ : k₀ = k
    · subst h₀; simp [setKey, lookupDoc, h]
    · by_cases h₁ : k₀ = k' <;>
        simp [setKey, h₀, h₁, lookupDoc, ih, Ne.symm h]

theorem stripInternal_setKey (d : Doc) (k : String) (v : JVal)
    (h : internalKey k = true) :
    stripInternal (setKey d k v) = stripInternal d := by
  induction d with
  | nil => simp [setKey, stripInternal, List.filter, h]
  | cons kv rest ih =>
    obtain ⟨k₀, v₀⟩ := kv
    by_cases h₀ : k₀ = k
    · subst h₀; simp [setKey, stripInternal, List.filter_cons, h]
    · cases hik : internalKey k₀ <;>
        simp_all [setKey, stripInternal, List.filter_cons]

theorem lookupDoc_stampedDoc_sid (sid : String) (sess : Doc)
    (ttl : Option Int) (now : Int) :
    lookupDoc (stampedDoc sid sess ttl now) "sid" = some (.str sid) := by
  unfold stampedDoc
  rw [lookupDoc_setKey_ne _ _ _ _ (by decide)]
  exact lookupDoc_setKey_self _ _ _

theorem lookupDoc_stampedDoc_ttl (sid : String) (sess : Doc)
    (ttl : Option Int) (now : Int) :
    lookupDoc (stampedDoc sid sess ttl now) "ttl" =
      some (.date (effectiveDelay sess ttl + now)) :=
  lookupDoc_setKey_self _ _ _

theorem matchesSid_stampedDoc (sid : String) (sess : Doc)
    (ttl : Option Int) (now : Int) :
    matchesSid sid (stampedDoc sid sess ttl now) = true := by
  simp [matchesSid, lookupDoc_stampedDoc_sid]

theorem stripInternal_stampedDoc (sid : String) (sess : Doc)
    (ttl : Option Int) (now : Int) :
    stripInternal (stampedDoc sid sess ttl now) = stripInternal sess := by
  unfold stampedDoc
  rw [stripInternal_setKey _ _ _ (by decide),
    stripInternal_setKey _ _ _ (by decide)]

/-! ### Lemmas about the collection operations -/

theorem find?_replaceFirst (l : Collection) (p : Doc → Bool) (d : Doc)
    (hany : l.any p = true) (hd : p d = true) :
    (replaceFirst p d l).find? p = some d := by
  induction l with
  | nil => simp at hany
  | cons x rest ih =>
    by_cases hx : p x
    · simp [replaceFirst, hx, hd]
    · have hrest : rest.any p = true := by
        rcases List.any_eq_true.mp hany with ⟨y, hy, hpy⟩
        rcases List.mem_cons.mp hy with rfl | hy'
        · exact absurd hpy hx
        · exact List.any_eq_true.mpr ⟨y, hy', hpy⟩
      simp [replaceFirst, hx, ih hrest]

theorem find?_set (col : Collection) (sid : String) (sess : Doc)
    (ttl : Option Int) (now : Int) :
    (MongoStore.set col sid sess ttl now).find? (matchesSid sid) =
      some (stampedDoc sid sess ttl now) := by
  unfold MongoStore.set
  cases hc : col.any (matchesSid sid) with
  | true =>
    simp only [hc, if_true]
    exact find?_replaceFirst _ _ _ hc (matchesSid_stampedDoc _ _ _ _)
  | false =>
    have hnone : col.find? (matchesSid sid) = none :=
      List.find?_eq_none.mpr fun x hx => by
        simp [List.any_eq_false.mp hc x hx]
    simp [hc, List.find?_append, hnone, matchesSid_stampedDoc]

theorem find?_filter_keep {α : Type} (l : List α) (p q : α → Bool) (d : α)
    (h : l.find? p = some d) (hq : q d = true) :
    (l.filter q).find? p = some d := by
  induction l with
  | nil => simp at h
  | cons x rest ih =>
    by_cases hx : p x
    · rw [List.find?_cons_of_pos _ hx] at h
      obtain rfl := Option.some.inj h
      simp [List.filter_cons, hq, hx]
    · rw [List.find?_cons_of_neg _ hx] at h
      by_cases hqx : q x
      · simp [List.filter_cons, hqx, hx, ih h]
      · simp [List.filter_cons, hqx, ih h]

theorem filter_replaceFirst (l : Collection) (p : Doc → Bool) (d : Doc)
    (hlen : (l.filter p).length ≤ 1) (hany : l.any p = true)
    (hd : p d = true) : (replaceFirst p d l).filter p = [d] := by
  induction l with
  | nil => simp at hany
  | cons x rest ih =>
    by_cases hx : p x
    · have hrest : rest.filter p = [] := by
        rw [List.filter_cons, if_pos hx, List.length_cons] at hlen
        exact List.length_eq_zero.mp (by omega)
      simp [replaceFirst, hx, List.filter_cons, hd, hrest]
    · have hrest : rest.any p = true := by
        rcases List.any_eq_true.mp hany with ⟨y, hy, hpy⟩
        rcases List.mem_cons.mp hy with rfl | hy'
        · exact absurd hpy hx
        · exact List.any_eq_true.mpr ⟨y, hy', hpy⟩
      have hlen' : (rest.filter p).length ≤ 1 := by
        rwa [List.filter_cons, if_neg hx] at hlen
      simp [replaceFirst, hx, List.filter_cons, ih hlen' hrest]

theorem filter_set (col : Collection) (sid : String) (sess : Doc)
    (ttl : Option Int) (now : Int)
    (h : (col.filter (matchesSid sid)).length ≤ 1) :
    (MongoStore.set col sid sess ttl now).filter (matchesSid sid) =
      [stampedDoc sid sess ttl now] := by
  unfold MongoStore.set
  cases hc : col.any (matchesSid sid) with
  | true =>
    simp only [hc, if_true]
    exact filter_replaceFirst _ _ _ h hc (matchesSid_stampedDoc _ _ _ _)
  | false =>
    have hnil : col.filter (matchesSid sid) = [] := by
      rw [List.filter_eq_nil_iff]
      intro a ha
      simp [List.any_eq_false.mp hc a ha]
    simp [hc, List.filter_append, hnil, List.filter_cons,
      matchesSid_stampedDoc]

theorem fallback_eq_cookieFallback (sess : Doc) :
    (match maxAgeExpr sess with
      | some (.num n) => n
      | _ => ONE_DAY) = cookieFallback sess := by
  rw [maxAgeExpr, cookieFallback]
  cases lookupDoc sess "cookie" with
  | none => rfl
  | some c =>
    by_cases ht : jsTruthy c
    · simp only [ht, if_true]
      rw [jsOr.eq_def]
      cases jsGetField c "maxAge" with
      | none => rfl
      | some v =>
        by_cases htv : jsTruthy v
        · simp only [htv, if_true]
          cases v <;> rfl
        · simp only [htv, if_false, Bool.false_eq_true]
    · simp only [ht, if_false, Bool.false_eq_true]
      cases c <;> rfl

theorem effectiveDelay_eq_amended (sess : Doc) (ttl : Option Int) :
    effectiveDelay sess ttl = amendedMaxAge sess ttl := by
  rw [effectiveDelay.eq_def, amendedMaxAge.eq_def]
  cases ttl with
  | none => exact fallback_eq_cookieFallback sess
  | some n =>
    by_cases hn : n = 0
    · simp only [hn, if_true, eq_self_iff_true]
      exact fallback_eq_cookieFallback sess
    · simp only [hn, if_false]

/-! ### The claims -/

/-- C1: for every valid `sid` and every payload, a `set(sid, payload)`
followed immediately by `get(sid)` returns a payload equal to what was
written with the internal bookkeeping fields `_id`, `ttl` and `sid`
stripped out, provided the computed ttl has not yet elapsed (here: even if
the TTL-index background sweep runs at a time `t` before the computed
expiry between the two calls). -/
theorem c1_set_then_get_roundtrip (col : Collection) (sid : String)
    (sess : Doc) (ttl : Option Int) (now t : Int)
    (hlive : t < effectiveDelay sess ttl + now) :
    MongoStore.get (expireSweep t (MongoStore.set col sid sess ttl now)) sid =
      some (stripInternal sess) := by
  have h1 := find?_set col sid sess ttl now
  have h2 : (fun d => match lookupDoc d "ttl" with
      | some (.date e) => decide (t < e)
      | _ => true) (stampedDoc sid sess ttl now) = true := by
    simp [lookupDoc_stampedDoc_ttl, hlive]
  unfold MongoStore.get expireSweep
  rw [find?_filter_keep _ _ _ _ h1 h2, Option.map_some',
    stripInternal_stampedDoc]

/-- Witness for C1 at a concrete input. -/
theorem c1_witness :
    (0 : Int) < effectiveDelay [("user", JVal.str "bob")] none + 5 ∧
    MongoStore.get (expireSweep 0 (MongoStore.set [] "a"
        [("user", JVal.str "bob")] none 5)) "a" =
      some (stripInternal [("user", JVal.str "bob")]) :=
  ⟨by decide,
    c1_set_then_get_roundtrip [] "a" [("user", JVal.str "bob")] none 5 0
      (by decide)⟩

/-- C2 counterexample: at `set("a", {}, 0)` with write time `0` the claim
predicts a stored expiry of `0 + 0` (the supplied explicit `ttl` argument,
which is `0`), but the code treats the falsy `ttl` as absent and stores
`ONE_DAY`. -/
theorem c2_counterexample :
    lookupDoc (stampedDoc "a" [] (some 0) 0) "ttl" ≠
      some (JVal.date (claimedMaxAge [] (some 0) + 0)) ∧
    lookupDoc (stampedDoc "a" [] (some 0) 0) "ttl" =
      some (JVal.date ONE_DAY) := by
  have hcode : lookupDoc (stampedDoc "a" [] (some 0) 0) "ttl" =
      some (JVal.date 86400000) := rfl
  have hclaim : claimedMaxAge [] (some 0) + 0 = 0 := rfl
  refine ⟨?_, ?_⟩
  · rw [hcode, hclaim]
    intro h
    exact absurd (JVal.date.inj (Option.some.inj h)) (by decide)
  · rw [hcode]
    rfl

/-- C2 (amended): for every call `set(sid, payload, ttl)`, the stored
record's `ttl` field equals write-time plus the effective max-age, where
the effective max-age is the explicit `ttl` argument when it is supplied
and nonzero, otherwise the cookie-derived duration when numeric — with a
truthy `cookie`, `cookie.maxAge` when truthy else `cookie.maxage`; with a
falsy but present `cookie`, the cookie value itself — otherwise
86,400,000 ms. -/
theorem c2_amended_ttl_computation (sid : String) (sess : Doc)
    (ttl : Option Int) (now : Int) :
    lookupDoc (stampedDoc sid sess ttl now) "ttl" =
      some (.date (amendedMaxAge sess ttl + now)) := by
  rw [lookupDoc_stampedDoc_ttl, effectiveDelay_eq_amended]

/-- C3: starting from a collection respecting the `sid`-uniqueness
invariant, two sequential `set` calls with the same `sid` leave exactly one
record for that `sid`, whose content is the second stamped payload alone —
a full replace, never a merge — and `get` returns only the second
payload. -/
theorem c3_set_set_full_replace (col : Collection) (sid : String)
    (s₁ s₂ : Doc) (t₁ t₂ : Option Int) (n₁ n₂ : Int)
    (h : (col.filter (matchesSid sid)).length ≤ 1) :
    (MongoStore.set (MongoStore.set col sid s₁ t₁ n₁) sid s₂ t₂ n₂).filter
        (matchesSid sid) = [stampedDoc sid s₂ t₂ n₂] ∧
    MongoStore.get (MongoStore.set (MongoStore.set col sid s₁ t₁ n₁) sid
        s₂ t₂ n₂) sid = some (stripInternal s₂) := by
  have h1 := filter_set col sid s₁ t₁ n₁ h
  have h2 : (((MongoStore.set col sid s₁ t₁ n₁)).filter
      (matchesSid sid)).length ≤ 1 := by
    rw [h1]; simp
  have h3 := filter_set _ sid s₂ t₂ n₂ h2
  refine ⟨h3, ?_⟩
  unfold MongoStore.get
  rw [← List.filter_head?, h3]
  simp [stripInternal_stampedDoc]

/-- Witness for C3 at a concrete input. -/
theorem c3_witness :
    (([] : Collection).filter (matchesSid "a")).length ≤ 1 ∧
    (MongoStore.set (MongoStore.set [] "a" [("u", JVal.num 1)] none 0) "a"
        [("v", JVal.num 2)] none 7).filter (matchesSid "a") =
      [stampedDoc "a" [("v", JVal.num 2)] none 7] ∧
    MongoStore.get (MongoStore.set (MongoStore.set [] "a"
        [("u", JVal.num 1)] none 0) "a" [("v", JVal.num 2)] none 7) "a" =
      some (stripInternal [("v", JVal.num 2)]) :=
  have h := c3_set_set_full_replace [] "a" [("u", JVal.num 1)]
    [("v", JVal.num 2)] none none 0 7 (by decide)
  ⟨by decide, h.1, h.2⟩

/-- C4: constructing the store with a `url` option (a connection string,
hence non-empty) together with any of the `host`, `port`, `db` or `ssl`
options fails synchronously with the configuration error, before any
asynchronous or network activity: no `InitPlan` is produced. -/
theorem c4_url_exclusive (o : StoreOptions) (u : String)
    (hurl : o.url = some u) (hne : u ≠ "")
    (hother : o.host.isSome ∨ o.port.isSome ∨ o.db.isSome ∨ o.ssl.isSome) :
    construct o = .error urlExclusiveMsg := by
  unfold construct
  rw [if_pos]
  simp only [hurl, optTruthy, Bool.and_eq_true, decide_eq_true_eq,
    Bool.or_eq_true, Option.isSome_iff_exists]
  refine ⟨hne, ?_⟩
  rcases hother with h | h | h | h <;>
    simp [Option.isSome_iff_exists] at h <;> tauto

/-- Witness for C4 at the spec's own example input. -/
theorem c4_witness :
    construct { url := some "mongodb://x", host := some "y" } =
      .error urlExclusiveMsg :=
  c4_url_exclusive _ "mongodb://x" rfl (by decide) (Or.inl (by decide))

/-- C5: for every `sid` with no matching record, `get` returns the absent
marker (`none`, the driver's `null`), not an error. -/
theorem c5_get_absent (col : Collection) (sid : String)
    (h : ∀ d ∈ col, matchesSid sid d = false) :
    MongoStore.get col sid = none := by
  unfold MongoStore.get
  rw [List.find?_eq_none.mpr fun x hx => by simp [h x hx]]
  rfl

/-- Witness for C5 at a concrete input. -/
theorem c5_witness :
    (∀ d ∈ ([[("sid", JVal.str "b")]] : Collection),
      matchesSid "a" d = false) ∧
    MongoStore.get [[("sid", JVal.str "b")]] "a" = none :=
  ⟨by decide, c5_get_absent [[("sid", JVal.str "b")]] "a" (by decide)⟩

/-- C6: `destroy(sid)` followed by `get(sid)` returns the absent marker,
for every collection; and `destroy` succeeds on a collection holding no
record for `sid` — destroying again changes nothing and is no error. -/
theorem c6_destroy_then_get (col : Collection) (sid : String) :
    MongoStore.get (MongoStore.destroy col sid) sid = none ∧
    MongoStore.destroy (MongoStore.destroy col sid) sid =
      MongoStore.destroy col sid := by
  constructor
  · unfold MongoStore.get MongoStore.destroy
    rw [List.find?_eq_none.mpr]
    · rfl
    · intro x hx
      have hx' := (List.mem_filter.mp hx).2
      simp only [Bool.not_eq_true'] at hx'
      simp [hx']
  · unfold MongoStore.destroy
    rw [List.filter_filter]
    exact List.filter_congr fun x _ => by rw [Bool.and_self]

/-- C7: the synthesized connection string agrees everywhere with the
spec's description (defaults `127.0.0.1`, `27017`, `test`, ssl off;
credentials interpolated exactly when both are supplied; `?ssl=true`
appended exactly when ssl is set), and the all-defaults string is
`mongodb://127.0.0.1:27017/test`. -/
theorem c7_connection_string (user password host : Option String)
    (port : Option Int) (db : Option String) (ssl : Option Bool) :
    _makeConnectionString user password host port db ssl =
      specConnectionString user password host port db ssl ∧
    _makeConnectionString none none none none none none =
      "mongodb://127.0.0.1:27017/test" := by
  constructor
  · unfold _makeConnectionString specConnectionString
    have hcred : (if optTruthy user && optTruthy password then
        user.getD "" ++ ":" ++ password.getD "" ++ "@" else "") =
        (match user, password with
         | some u, some p =>
           if u = "" ∨ p = "" then "" else u ++ ":" ++ p ++ "@"
         | _, _ => "") := by
      cases user with
      | none => rfl
      | some u =>
        cases password with
        | none => simp [optTruthy]
        | some p =>
          by_cases hu : u = "" <;> by_cases hp : p = "" <;>
            simp [optTruthy, hu, hp]
    have hssl : (if ssl.getD false then "?ssl=true" else "") =
        (if ssl = some true then "?ssl=true" else "") := by
      cases ssl with
      | none => rfl
      | some b => cases b <;> rfl
    rw [hcred, hssl]
  · rfl

/-- C8: the promise chain emits its `connect` signal, carrying the
resolved collection, exactly when the collection resolved and both index
guarantees (TTL expiry on `ttl`, uniqueness on `sid`) were confirmed; in
every other case it emits an `error` signal instead.  The chain settles
once, so no retry occurs. -/
theorem c8_connect_after_indexes (α : Type) (colRes : Except String α)
    (ttlIdx sidIdx : Except String Unit) :
    (∀ c : α, initSignal colRes ttlIdx sidIdx = Signal.connect c ↔
      (colRes = .ok c ∧ ttlIdx = .ok () ∧ sidIdx = .ok ())) ∧
    ((∃ e, initSignal colRes ttlIdx sidIdx = Signal.error e) ↔
      ¬∃ c, colRes = .ok c ∧ ttlIdx = .ok () ∧ sidIdx = .ok ()) := by
  rcases colRes with e | col <;> rcases ttlIdx with e₁ | ⟨⟩ <;>
    rcases sidIdx with e₂ | ⟨⟩ <;>
    simp [initSignal, _ensureIndexes, eq_comm]

/-- C9: the body of `set` never mutates the caller's payload object: the
heap cell holding the payload is unchanged, and the committed document is
the stamped clone. -/
theorem c9_set_clones_payload (h : Heap) (sessAddr : Nat) (sid : String)
    (ttl : Option Int) (now : Int) (hlt : sessAddr < h.length) :
    heapGet (setOnHeap h sessAddr sid ttl now).1 sessAddr =
      heapGet h sessAddr ∧
    heapGet (setOnHeap h sessAddr sid ttl now).1
        (setOnHeap h sessAddr sid ttl now).2 =
      stampedDoc sid (heapGet h sessAddr) ttl now := by
  have hne : h.length ≠ sessAddr := by omega
  have hlen1 : sessAddr < (h ++ [heapGet h sessAddr]).length := by
    simp; omega
  constructor
  · simp only [setOnHeap, heapGet]
    rw [List.getD_eq_getElem?_getD, List.getElem?_set_ne hne,
      List.getElem?_set_ne hne, List.getElem?_append_left hlt,
      ← List.getD_eq_getElem?_getD]
  · simp only [setOnHeap, heapGet]
    have hget1 : (h ++ [h.getD sessAddr []]).getD h.length [] =
        h.getD sessAddr [] := by
      rw [List.getD_eq_getElem?_getD, List.getElem?_concat_length]
      rfl
    have hlen2 : h.length < (h ++ [h.getD sessAddr []]).length := by
      simp
    have hget2 : ((h ++ [h.getD sessAddr []]).set h.length
          (setKey ((h ++ [h.getD sessAddr []]).getD h.length [])
            "sid" (.str sid))).getD h.length [] =
        setKey (h.getD sessAddr []) "sid" (.str sid) := by
      rw [List.getD_eq_getElem?_getD, List.getElem?_set_self hlen2, hget1]
      rfl
    rw [List.getD_eq_getElem?_getD, List.getElem?_set_self
      (by simp), hget2, hget1]
    rfl

/-- Witness for C9 at a concrete input. -/
theorem c9_witness :
    0 < ([[("cookie", JVal.obj [("maxAge", JVal.num 5000)])]] : Heap).length ∧
    heapGet (setOnHeap [[("cookie", JVal.obj [("maxAge", JVal.num 5000)])]]
        0 "a" none 1).1 0 =
      heapGet [[("cookie", JVal.obj [("maxAge", JVal.num 5000)])]] 0 ∧
    heapGet (setOnHeap [[("cookie", JVal.obj [("maxAge", JVal.num 5000)])]]
        0 "a" none 1).1
        (setOnHeap [[("cookie", JVal.obj [("maxAge", JVal.num 5000)])]]
          0 "a" none 1).2 =
      stampedDoc "a" (heapGet
        [[("cookie", JVal.obj [("maxAge", JVal.num 5000)])]] 0) none 1 :=
  have h := c9_set_clones_payload
    [[("cookie", JVal.obj [("maxAge", JVal.num 5000)])]] 0 "a" none 1
    (by decide)
  ⟨by decide, h.1, h.2⟩

/-- C10: the record committed by `set` — the unique document `get`-visible
under the query `{sid: sid}` — carries `sid` equal to the `sid` argument
and `ttl` equal to the store-computed absolute expiry, for every payload,
including payloads that themselves contain `sid` or `ttl` keys: the
stamped values override same-named payload keys. -/
theorem c10_stamped_fields_override (col : Collection) (sid : String)
    (sess : Doc) (ttl : Option Int) (now : Int) :
    (MongoStore.set col sid sess ttl now).find? (matchesSid sid) =
      some (stampedDoc sid sess ttl now) ∧
    lookupDoc (stampedDoc sid sess ttl now) "sid" = some (.str sid) ∧
    lookupDoc (stampedDoc sid sess ttl now) "ttl" =
      some (.date (effectiveDelay sess ttl + now)) :=
  ⟨find?_set col sid sess ttl now,
    lookupDoc_stampedDoc_sid sid sess ttl now,
    lookupDoc_stampedDoc_ttl sid sess ttl now⟩

end SessionStore
